import Mathlib

/-!
Verification of the lazyUI design-token pipeline: a shallow embedding of
the extractor (`flattenObject`, `extractTruth`), the resolver
(`resolveTruth`), the validator (`validateCode` with its prefix matcher
and category dispatch) and the suggestion engine (`levenshtein`,
`findClosest`), together with theorems settling the specification's
claims about them.
-/

namespace LazyUI

/-- A JavaScript plain object holding string values
(`Record<string, string>` in the source), embedded as an association
list in insertion order. -/
abbrev Rec := List (String × String)

/-- Reading property `k`: the first binding of `k`, if any. -/
def getVal? (r : Rec) (k : String) : Option String :=
  (r.find? (fun p => p.1 == k)).map (fun p => p.2)

/-- `Object.keys` in insertion order. -/
def recKeys (r : Rec) : List String := r.map (fun p => p.1)

/-- JS spread `{...a, ...b}`: `a`'s entries stay in place with `b`'s
value winning on a shared key, then `b`'s new keys are appended. -/
def spread (a b : Rec) : Rec :=
  a.map (fun p => (p.1, (getVal? b p.1).getD p.2)) ++
    b.filter (fun p => (getVal? a p.1).isNone)

/-- The `ResolvedTruth` interface of `src/logic/resolver.ts`: the final
`colors` and `spacing` token mappings consumed by validation. -/
structure ResolvedTruth where
  colors : Rec
  spacing : Rec
  deriving DecidableEq, Repr

/-- One origin bucket of `ExtractedTruth`: a `colors` and a `spacing`
mapping. -/
structure TokenBucket where
  colors : Rec
  spacing : Rec
  deriving DecidableEq, Repr

/-- The `ExtractedTruth` interface of the extractor: an `extend` bucket
and an `override` bucket. -/
structure ExtractedTruth where
  extend : TokenBucket
  override : TokenBucket
  deriving DecidableEq, Repr

/-- `resolveTruth` of `src/logic/resolver.ts`.  The built-in default
token table (the static asset `tailwind-defaults.json`, imported by the
resolver but not itself a source file) is passed explicitly as
`defaultTheme`. -/
def resolveTruth (defaultTheme : ResolvedTruth) (userTruth : ExtractedTruth) :
    ResolvedTruth :=
  let finalColors : Rec :=
    if (recKeys userTruth.override.colors).length > 0 then
      spread userTruth.override.colors userTruth.extend.colors
    else
      spread defaultTheme.colors userTruth.extend.colors
  let finalSpacing : Rec :=
    if (recKeys userTruth.override.spacing).length > 0 then
      spread userTruth.override.spacing userTruth.extend.spacing
    else
      spread defaultTheme.spacing userTruth.extend.spacing
  { colors := finalColors, spacing := finalSpacing }

/-! ### Lookup laws for `spread` -/

theorem getVal?_nil (k : String) : getVal? [] k = none := rfl

theorem getVal?_cons (p : String × String) (r : Rec) (k : String) :
    getVal? (p :: r) k = if p.1 == k then some p.2 else getVal? r k := by
  by_cases h : p.1 == k <;> simp [getVal?, List.find?_cons, h]

theorem getVal?_append (r s : Rec) (k : String) :
    getVal? (r ++ s) k = (getVal? r k).or (getVal? s k) := by
  induction r with
  | nil => simp [getVal?, Option.or]
  | cons p r ih =>
    by_cases h : p.1 == k <;>
      simp [getVal?_cons, h, ih, Option.or]

theorem getVal?_map_update (a b : Rec) (k : String) :
    getVal? (a.map (fun p => (p.1, (getVal? b p.1).getD p.2))) k =
      (getVal? a k).map (fun v => (getVal? b k).getD v) := by
  induction a with
  | nil => simp [getVal?]
  | cons p a ih =>
    by_cases h : p.1 == k
    · cases eq_of_beq h
      simp [getVal?_cons, h]
    · simp [getVal?_cons, h, ih]

theorem getVal?_filter_notin (a b : Rec) (k : String)
    (hk : getVal? a k = none) :
    getVal? (b.filter (fun p => (getVal? a p.1).isNone)) k = getVal? b k := by
  induction b with
  | nil => rfl
  | cons q b ih =>
    by_cases h : q.1 == k
    · cases eq_of_beq h
      simp [List.filter_cons, hk, getVal?_cons]
    · by_cases hq : (getVal? a q.1).isNone <;>
        simp [List.filter_cons, hq, getVal?_cons, h, ih]

theorem getVal?_filter_in (a b : Rec) (k : String)
    (hk : (getVal? a k).isSome) :
    getVal? (b.filter (fun p => (getVal? a p.1).isNone)) k = none := by
  induction b with
  | nil => rfl
  | cons q b ih =>
    by_cases h : q.1 == k
    · cases eq_of_beq h
      have : (getVal? a q.1).isNone = false := by
        cases hv : getVal? a q.1 <;> simp_all
      simp [List.filter_cons, this, ih]
    · by_cases hq : (getVal? a q.1).isNone <;>
        simp [List.filter_cons, hq, getVal?_cons, h, ih]

/-- The defining lookup law of JS spread: the right operand wins. -/
theorem getVal?_spread (a b : Rec) (k : String) :
    getVal? (spread a b) k = (getVal? b k).or (getVal? a k) := by
  rw [spread, getVal?_append, getVal?_map_update]
  cases ha : getVal? a k with
  | none =>
    rw [getVal?_filter_notin a b k ha]
    cases getVal? b k <;> simp [Option.or]
  | some v =>
    rw [getVal?_filter_in a b k (by simp [ha])]
    cases getVal? b k <;> simp [Option.or]

theorem spread_nil (a : Rec) : spread a [] = a := by
  simp [spread, getVal?]

/-! ### The extractor's `flattenObject` -/

/-- A JavaScript value as the extractor's `flattenObject` receives one:
a string, a plain object, an array, or `null` (what
`extractObjectFromNode` returns for dynamic constructs). -/
inductive JValue where
  | str : String → JValue
  | obj : List (String × JValue) → JValue
  | arr : List JValue → JValue
  | null : JValue
  deriving Repr

/-- JS property assignment `r[k] = v` on a plain object: an existing key
is updated in place, a new key is appended. -/
def recAssign (r : Rec) (k v : String) : Rec :=
  if (getVal? r k).isSome then
    r.map (fun p => if p.1 == k then (p.1, v) else p)
  else r ++ [(k, v)]

/-- `Object.assign(r, s)`: assign every entry of `s` onto `r` in order. -/
def assignAll (r s : Rec) : Rec :=
  s.foldl (fun acc p => recAssign acc p.1 p.2) r

mutual

/-- `flattenObject` of the extractor (`part_001` lines 22-37): walks the
object's entries in order; `newKey` is the key itself at the top level and
`pre ++ "-" ++ key` below it — for every child key, `DEFAULT` included; a
nested object recurses and is assigned onto the accumulator, a string is
assigned at `newKey`, anything else is skipped. -/
def flattenObject (v : JValue) (pre : String) : Rec :=
  match v with
  | .obj fields => flattenFields fields pre []
  | _ => []

/-- The extractor's `for key in obj` loop, `result` the accumulator. -/
def flattenFields (fields : List (String × JValue)) (pre : String) (result : Rec) :
    Rec :=
  match fields with
  | [] => result
  | (key, value) :: rest =>
    let newKey := if pre == "" then key else pre ++ "-" ++ key
    match value with
    | .obj sub => flattenFields rest pre (assignAll result (flattenFields sub newKey []))
    | .str s => flattenFields rest pre (recAssign result newKey s)
    | _ => flattenFields rest pre result

end

/-! ### The validator's fixed tables (`part_000` lines 13-55) -/

/-- `SCOPED_PREFIXES`: category to ordered list of prefix entries, in
declaration order (the order `Object.entries` yields). -/
def SCOPED_PREFIXES : List (String × List String) :=
  [("colors", ["bg-", "text-", "border-", "ring-", "divide-"]),
   ("spacing", ["p-", "pt-", "pr-", "pb-", "pl-", "px-", "py-", "m-", "mt-",
     "mr-", "mb-", "ml-", "mx-", "my-", "gap-", "gap-x-", "gap-y-",
     "space-x-", "space-y-"]),
   ("layout", ["flex", "flex-", "grid", "grid-", "block", "hidden", "inline",
     "inline-block", "inline-flex", "inline-grid",
     "w-", "h-", "min-w-", "max-w-", "min-h-", "max-h-",
     "justify-", "items-", "content-", "self-", "col-", "row-",
     "relative", "absolute", "fixed", "sticky",
     "top-", "bottom-", "left-", "right-", "inset-",
     "z-", "flex-wrap", "order-", "overflow-",
     "border-t-", "border-b-", "border-l-", "border-r-", "border-x-",
     "border-y-"]),
   ("typography", ["font-", "leading-", "tracking-", "text-",
     "uppercase", "lowercase", "capitalize", "normal-case",
     "list-", "italic", "underline",
     "text-center", "text-left", "text-right"]),
   ("decoration", ["rounded-", "rounded", "shadow-", "shadow",
     "opacity-", "cursor-",
     "border-t", "border-b", "border-l", "border-r",
     "ring-", "outline-", "transition-", "duration-"])]

/-- `STANDARD_SIZE_KEYWORDS`: sizing keywords needing no config. -/
def STANDARD_SIZE_KEYWORDS : List String :=
  ["full", "screen", "min", "max", "fit", "auto", "px"]

/-- `TEXT_SIZES`: the fixed text-size keyword set. -/
def TEXT_SIZES : List String :=
  ["xs", "sm", "base", "lg", "xl", "2xl", "3xl", "4xl", "5xl", "6xl", "7xl",
   "8xl", "9xl"]

/-- `BORDER_WIDTHS`: the fixed numeric border-width token set. -/
def BORDER_WIDTHS : List String := ["0", "2", "4", "8"]

/-! ### JS string primitives, on the character sequence -/

/-- JS `s.startsWith(p)`. -/
def jsStartsWith (s p : String) : Bool := p.data.isPrefixOf s.data

/-- JS `s.endsWith(p)`. -/
def jsEndsWith (s p : String) : Bool := p.data.isSuffixOf s.data

/-- JS `s.substring(n)`. -/
def jsSubstringFrom (s : String) (n : Nat) : String := String.mk (s.data.drop n)

/-- JS `s.includes(c)` for a one-character needle. -/
def jsIncludesChar (s : String) (c : Char) : Bool := s.data.contains c

/-- JS `s.length`. -/
def jsLength (s : String) : Nat := s.data.length

/-! ### The prefix matcher (`findLongestMatch`, `part_000` lines 125-148) -/

/-- One prefix entry's match test, the two branches of the loop body: an
entry without a trailing separator matches only on exact equality, a
separator-terminated entry matches when the class starts with it. -/
def matchesEntry (cls p : String) : Bool :=
  if !jsEndsWith p "-" then cls == p else jsStartsWith cls p

/-- The loop step over one `(category, entry)` pair: replace the
accumulator when the entry matches and is strictly longer than the best
length so far. -/
def flmStep (cls : String) (acc : Option (String × String) × Nat)
    (q : String × String) : Option (String × String) × Nat :=
  if matchesEntry cls q.2 && decide (acc.2 < jsLength q.2) then
    (some q, jsLength q.2)
  else acc

/-- `findLongestMatch`: scan every category's entries, keeping the
longest matching entry (first registered wins a tie). -/
def findLongestMatch (cls : String) : Option (String × String) :=
  (SCOPED_PREFIXES.foldl
    (fun acc e => e.2.foldl (fun a p => flmStep cls a (e.1, p)) acc)
    (none, 0)).1

/-- `extractToken`: an exact-match entry carries no token; a
separator-terminated entry strips the matched prefix. -/
def extractToken (cls p : String) : String :=
  if !jsEndsWith p "-" then "" else jsSubstringFrom cls (jsLength p)

/-- The regex `^\d+\/\d+$` of `isStandardSizeKeyword`. -/
def isFraction (s : String) : Bool :=
  let d1 := s.data.takeWhile Char.isDigit
  match s.data.dropWhile Char.isDigit with
  | '/' :: r2 => !d1.isEmpty && !r2.isEmpty && r2.all Char.isDigit
  | _ => false

/-- `isStandardSizeKeyword`: a standard keyword or a fraction. -/
def isStandardSizeKeyword (token : String) : Bool :=
  STANDARD_SIZE_KEYWORDS.contains token || isFraction token

/-! ### The suggestion engine (`levenshtein`/`findClosest`,
`part_000` lines 60-100) -/

/-- One inner-loop pass of `levenshtein`'s matrix fill: `diag` is
`matrix[i-1][j-1]`, `left` is `matrix[i][j-1]`, the `List Nat` argument
the remaining `matrix[i-1][j..]` cells; produces `matrix[i][j..]`. -/
def levGo (bc : Char) : List Char → List Nat → Nat → Nat → List Nat
  | [], _, _, _ => []
  | _ :: _, [], _, _ => []
  | aj :: arest, pj :: prest, diag, left =>
    let c := if bc == aj then diag else min (diag + 1) (min (left + 1) (pj + 1))
    c :: levGo bc arest prest pj c

/-- Row `i` of the matrix from row `i - 1`: the first cell is `i`
(`matrix[i] = [i]`), the rest filled by the inner loop. -/
def levNextRow (bc : Char) (aC : List Char) (i : Nat) (prev : List Nat) :
    List Nat :=
  match prev with
  | [] => [i]
  | p0 :: prest => i :: levGo bc aC prest p0 i

/-- `levenshtein`: the dynamic-programming matrix built row by row,
returning `matrix[b.length][a.length]`. -/
def levenshtein (a b : String) : Nat :=
  let row0 := List.range (jsLength a + 1)
  let final :=
    (b.data.foldl (fun st bc => (levNextRow bc a.data (st.2 + 1) st.1, st.2 + 1))
      (row0, (0 : Nat))).1
  final.getD (jsLength a) 0

/-- Modelled from the spec (§4.6): the classic single-character-edit
(insertion/deletion/substitution) distance recurrence on prefix
lengths — `edCell aC bC i j` is the edit distance between the first `i`
characters of `b` and the first `j` characters of `a`.  The second,
spec-side definition `levenshtein` is compared against. -/
def edCell (aC bC : List Char) : Nat → Nat → Nat
  | 0, j => j
  | i + 1, 0 => i + 1
  | i + 1, j + 1 =>
    if bC.getD i ' ' == aC.getD j ' ' then edCell aC bC i j
    else min (edCell aC bC i j + 1)
      (min (edCell aC bC (i + 1) j + 1) (edCell aC bC i (j + 1) + 1))
  termination_by i j => (i, j)

/-- `findClosest`: decorate with distances, sort ascending (JS
`Array.prototype.sort` is a stable sort per the language standard,
modelled by the stable `List.mergeSort`), take the top 3. -/
def findClosest (target : String) (options : List String) : List String :=
  let distances := options.map (fun o => (o, levenshtein target o))
  let sorted := distances.mergeSort (fun x y => decide (x.2 ≤ y.2))
  (sorted.take 3).map (fun d => d.1)

/-! ### The validator (`validateCode`, `part_000` lines 171-302) -/

/-- JS truthiness of `record[token]`: the property exists and its string
value is non-empty. -/
def recTruthy (r : Rec) (k : String) : Bool :=
  match getVal? r k with
  | some v => v != ""
  | none => false

/-- What the validation loop does with one class token. -/
inductive TokenVerdict where
  | accept : TokenVerdict
  | reject : String → TokenVerdict
  deriving DecidableEq, Repr

/-- The rejection message with the original prefix re-attached to each
suggestion. -/
def invalidClassMsg (cls pfx : String) (suggestions : List String) : String :=
  "Invalid class '" ++ cls ++ "'. Did you mean: " ++
    String.intercalate ", " (suggestions.map (fun s => "'" ++ pfx ++ s ++ "'")) ++
    "?"

/-- Step C of the validation loop: category dispatch for a class whose
longest prefix match is `(cat, pfx)`, the stripped remainder validated
per category. -/
def classifyMatched (truth : ResolvedTruth) (cls cat pfx : String) :
    TokenVerdict :=
  let token := extractToken cls pfx
  if cat == "colors" then
    if pfx == "text-" then
      if TEXT_SIZES.contains token then .accept
      else if token != "" && !recTruthy truth.colors token then
        .reject (invalidClassMsg cls pfx (findClosest token (recKeys truth.colors)))
      else .accept
    else if pfx == "border-" then
      if BORDER_WIDTHS.contains token then .accept
      else if token != "" && !recTruthy truth.colors token then
        .reject (invalidClassMsg cls pfx (findClosest token (recKeys truth.colors)))
      else .accept
    else
      if token != "" && !recTruthy truth.colors token then
        .reject (invalidClassMsg cls pfx (findClosest token (recKeys truth.colors)))
      else .accept
  else if cat == "spacing" then
    if token != "" && !recTruthy truth.spacing token then
      .reject (invalidClassMsg cls pfx (findClosest token (recKeys truth.spacing)))
    else .accept
  else if cat == "layout" then
    if jsStartsWith pfx "w-" || jsStartsWith pfx "h-" || jsStartsWith pfx "min-" ||
        jsStartsWith pfx "max-" then
      if token != "" && !isStandardSizeKeyword token &&
          !recTruthy truth.spacing token then
        .reject (invalidClassMsg cls pfx
          (findClosest token (STANDARD_SIZE_KEYWORDS ++ recKeys truth.spacing)))
      else .accept
    else if jsStartsWith pfx "border-t-" || jsStartsWith pfx "border-b-" ||
        jsStartsWith pfx "border-l-" || jsStartsWith pfx "border-r-" ||
        jsStartsWith pfx "border-x-" || jsStartsWith pfx "border-y-" then
      if token != "" && !recTruthy truth.spacing token then
        .reject (invalidClassMsg cls pfx (findClosest token (recKeys truth.spacing)))
      else .accept
    else .accept
  else .accept

/-- The body of `validateCode`'s loop for one class token: Step A the
arbitrary-value veto, Step B the longest prefix match (pass-through on
no match), Step C the category dispatch. -/
def classifyToken (truth : ResolvedTruth) (cls : String) : TokenVerdict :=
  if jsIncludesChar cls '[' && jsIncludesChar cls ']' then
    .reject ("Invalid arbitrary value: '" ++ cls ++
      "'. Arbitrary values are not allowed.")
  else
    match findLongestMatch cls with
    | none => .accept
    | some (cat, pfx) => classifyMatched truth cls cat pfx

/-- The `ValidationResult` interface. -/
structure ValidationResult where
  isValid : Bool
  code : String
  errors : List String
  deriving DecidableEq, Repr

/-- The validation loop's accumulators over a token list:
`(validClasses, (errors, isValid))`. -/
def validateGo (truth : ResolvedTruth) :
    List String → List String × List String × Bool
  | [] => ([], [], true)
  | cls :: rest =>
    let r := validateGo truth rest
    match classifyToken truth cls with
    | .accept => (cls :: r.1, r.2.1, r.2.2)
    | .reject e => (r.1, e :: r.2.1, false)

/-- `validateCode`'s loop over an already-extracted token list, with the
reconstructed space-joined class string. -/
def validateClasses (truth : ResolvedTruth) (classes : List String) :
    ValidationResult :=
  let r := validateGo truth classes
  { isValid := r.2.2, code := String.intercalate " " r.1, errors := r.2.1 }

/-! ### The class tokenizer (`extractClasses`, `part_000` lines 105-119) -/

/-- JS `\s`: space, tab, newline, carriage return, vertical tab, form
feed. -/
def jsSpace (c : Char) : Bool :=
  c == ' ' || c == '\t' || c == '\n' || c == '\r' || c == '\x0b' || c == '\x0c'

/-- A quote character of the `className` branch of the extraction regex. -/
def isQuote3 (c : Char) : Bool := c == '"' || c == '\'' || c == '\x60'

/-- A quote character of the `class` branch. -/
def isQuote2 (c : Char) : Bool := c == '"' || c == '\''

/-- Match a literal at the head of the input, returning the rest. -/
def dropLit (lit : List Char) (l : List Char) : Option (List Char) :=
  if lit.isPrefixOf l then some (l.drop lit.length) else none

/-- The `className`-attribute branch of the extraction regex, applied at
the head of the input: the literal `className`, optional whitespace,
`=`, optional whitespace, an optional `{`, a quote, a non-empty run of
non-quote characters (the capture), a closing quote, an optional `}`. -/
def matchClassNameAttr (l : List Char) : Option (String × List Char) :=
  match dropLit "className".data l with
  | none => none
  | some l1 =>
    match l1.dropWhile jsSpace with
    | '=' :: l3 =>
      let l4 := l3.dropWhile jsSpace
      let l5 := match l4 with
        | '{' :: r => r
        | _ => l4
      match l5 with
      | c :: r =>
        if isQuote3 c then
          let content := r.takeWhile (fun d => !isQuote3 d)
          if content.isEmpty then none
          else
            match r.dropWhile (fun d => !isQuote3 d) with
            | _ :: r2 =>
              let r3 := match r2 with
                | '}' :: rr => rr
                | _ => r2
              some (String.mk content, r3)
            | [] => none
        else none
      | [] => none
    | _ => none

/-- The `class`-attribute branch: the literal `class`, optional
whitespace, `=`, optional whitespace, a quote, a non-empty run of
non-quote characters (the capture), a closing quote. -/
def matchClassAttr (l : List Char) : Option (String × List Char) :=
  match dropLit "class".data l with
  | none => none
  | some l1 =>
    match l1.dropWhile jsSpace with
    | '=' :: l3 =>
      match l3.dropWhile jsSpace with
      | c :: r =>
        if isQuote2 c then
          let content := r.takeWhile (fun d => !isQuote2 d)
          if content.isEmpty then none
          else
            match r.dropWhile (fun d => !isQuote2 d) with
            | _ :: r2 => some (String.mk content, r2)
            | [] => none
        else none
      | [] => none
    | _ => none

/-- One attempt of the extraction regex at the current position: the
`className` branch first, then the `class` branch. -/
def matchAttrAt (l : List Char) : Option (String × List Char) :=
  match matchClassNameAttr l with
  | some r => some r
  | none => matchClassAttr l

/-- The `exec` loop of `extractClasses`: scan left to right, taking the
first match at each position and resuming after it; `fuel` (the input
length at the top call) bounds the recursion. -/
def scanAttrs : Nat → List Char → List String
  | 0, _ => []
  | _ + 1, [] => []
  | fuel + 1, l@(_ :: rest) =>
    match matchAttrAt l with
    | some (s, r) => s :: scanAttrs fuel r
    | none => scanAttrs fuel rest

/-- `split(/\s+/).filter(Boolean)`: whitespace-separated fragments,
empties discarded. -/
def splitWsGo : List Char → List Char → List String
  | acc, [] => if acc.isEmpty then [] else [String.mk acc.reverse]
  | acc, c :: rest =>
    if jsSpace c then
      if acc.isEmpty then splitWsGo [] rest
      else String.mk acc.reverse :: splitWsGo [] rest
    else splitWsGo (c :: acc) rest

/-- The whitespace split of one captured class string. -/
def splitWs (s : String) : List String := splitWsGo [] s.data

/-- `extractClasses`: every class-attribute match's captured string,
split on whitespace, in scan order. -/
def extractClasses (code : String) : List String :=
  (scanAttrs code.data.length code.data).flatMap splitWs

/-- `validateCode`: extract the class tokens, run the validation loop. -/
def validateCode (code : String) (resolvedTruth : ResolvedTruth) :
    ValidationResult :=
  validateClasses resolvedTruth (extractClasses code)

/-! ### Claims about the resolver and the flattener -/

/-- **C1.** `resolveTruth` computes each token family independently:
the override bucket, when non-empty, is the baseline, otherwise the
built-in defaults are; the extend bucket is overlaid on that baseline
and wins on any shared key.  Stated as the lookup law of the resolved
mappings: a key resolves to its extend value when the extend bucket has
it, and to its baseline value otherwise. -/
theorem C1_resolveTruth_merge_law (dt : ResolvedTruth) (t : ExtractedTruth)
    (k : String) :
    getVal? (resolveTruth dt t).colors k =
      ((getVal? t.extend.colors k).or
        (getVal? (if (recKeys t.override.colors).length > 0 then
          t.override.colors else dt.colors) k)) ∧
    getVal? (resolveTruth dt t).spacing k =
      ((getVal? t.extend.spacing k).or
        (getVal? (if (recKeys t.override.spacing).length > 0 then
          t.override.spacing else dt.spacing) k)) := by
  constructor <;>
    · simp only [resolveTruth]
      split <;> simp [getVal?_spread]

/-- **C9.** Resolving an `ExtractedTruth` whose override and extend
buckets are all empty returns exactly the built-in defaults,
unmodified. -/
theorem C9_resolveTruth_empty_is_defaults (dt : ResolvedTruth) :
    resolveTruth dt ⟨⟨[], []⟩, ⟨[], []⟩⟩ = dt := by
  cases dt
  simp [resolveTruth, recKeys, spread_nil]

/-- **C2, counterexample.** The claim says a nested key literally named
`DEFAULT` under parent `primary` yields flat key `primary`, not
`primary-DEFAULT`.  The extractor's `flattenObject` does the opposite:
it dash-joins `DEFAULT` like any other child key, so the flat key is
`primary-DEFAULT` and `primary` is absent. -/
theorem C2_cex_flatten_keeps_DEFAULT :
    flattenObject (.obj [("primary", .obj [("DEFAULT", .str "#000")])]) "" =
      [("primary-DEFAULT", "#000")] ∧
    getVal? (flattenObject
      (.obj [("primary", .obj [("DEFAULT", .str "#000")])]) "") "primary" = none := by
  constructor <;>
    simp [flattenObject, flattenFields, assignAll, recAssign, getVal?]

/-- **C2, amended.** Flattening an extracted nested token mapping
dash-joins a child key literally named `DEFAULT` like any other key: a
nested key `DEFAULT` under a non-empty parent key yields the flat key
`parent ++ "-DEFAULT"`, not the bare parent key.  (The `DEFAULT`
collapse the spec describes exists only in the separate
defaults-generation script's `flattenColors`, which is not the
extraction flattener.) -/
theorem C2_flatten_appends_DEFAULT (parent c : String) (h : parent ≠ "") :
    flattenObject (.obj [(parent, .obj [("DEFAULT", .str c)])]) "" =
      [(parent ++ "-DEFAULT", c)] := by
  have hp : (parent == "") = false := by simpa using h
  have hd : "-" ++ "DEFAULT" = "-DEFAULT" := rfl
  simp [flattenObject, flattenFields, hp, assignAll, recAssign, getVal?,
    String.append_assoc, hd]

/-- **C2, amended, witness.** The amended statement at the spec's own
example input. -/
theorem C2_flatten_appends_DEFAULT_witness :
    flattenObject (.obj [("primary", .obj [("DEFAULT", .str "#000")])]) "" =
      [("primary-DEFAULT", "#000")] :=
  C2_flatten_appends_DEFAULT "primary" "#000" (by decide)

/-! ### The validation loop's accumulation laws -/

/-- The classes the loop accepts (pass-through included), in order. -/
def acceptedClasses (truth : ResolvedTruth) (classes : List String) :
    List String :=
  classes.filter (fun c => classifyToken truth c == .accept)

/-- The error of a rejected class, `none` for an accepted one. -/
def rejectionOf (truth : ResolvedTruth) (c : String) : Option String :=
  match classifyToken truth c with
  | .accept => none
  | .reject e => some e

theorem validateGo_fst (truth : ResolvedTruth) (classes : List String) :
    (validateGo truth classes).1 = acceptedClasses truth classes := by
  induction classes with
  | nil => rfl
  | cons cls rest ih =>
    cases h : classifyToken truth cls <;>
      · simp [validateGo, acceptedClasses, List.filter_cons, h]
        simpa [acceptedClasses] using ih

theorem validateGo_errors (truth : ResolvedTruth) (classes : List String) :
    (validateGo truth classes).2.1 = classes.filterMap (rejectionOf truth) := by
  induction classes with
  | nil => rfl
  | cons cls rest ih =>
    cases h : classifyToken truth cls <;>
      simp [validateGo, rejectionOf, List.filterMap_cons, h, ih]

theorem validateGo_flag (truth : ResolvedTruth) (classes : List String) :
    (validateGo truth classes).2.2 = (validateGo truth classes).2.1.isEmpty := by
  induction classes with
  | nil => rfl
  | cons cls rest ih =>
    cases h : classifyToken truth cls <;> simp [validateGo, h, ih]

/-- The truth of the accumulation example: `red` a valid color, `4` a
valid spacing step, nothing else. -/
def exampleTruth : ResolvedTruth := ⟨[("red", "#f00")], [("4", "1rem")]⟩

theorem findClosest_singleton (t o : String) : findClosest t [o] = [o] := by
  simp [findClosest]

/-- **C3, counterexample.** The claim's example input is the bare string
`"bg-red text-giant p-4"`: it contains no `className`/`class` attribute,
so `extractClasses` recovers no token at all and `validateCode` returns
the vacuous success, not the claimed `isValid = false` with one error
and code `"bg-red p-4"`. -/
theorem C3_cex_bare_string_extracts_nothing :
    validateCode "bg-red text-giant p-4" exampleTruth =
      { isValid := true, code := "", errors := [] } ∧
    extractClasses "bg-red text-giant p-4" = [] := by
  constructor <;> rfl

/-- **C3, amended.** `validateCode` accumulates over every extracted
token in one pass with no short-circuit: `errors` holds exactly the
rejected tokens' messages in order, `code` is the space-joined accepted
and pass-through tokens in original order with rejected tokens omitted,
and `isValid` is true iff zero rejections occurred.  The claim's example
holds once its class list is wrapped in a class attribute (the form
`extractClasses` actually recovers tokens from): validating
`className="bg-red text-giant p-4"` against a truth where `red` and `4`
are valid but `giant` is neither yields `isValid = false`, exactly one
error, and code `"bg-red p-4"`. -/
theorem C3_validateCode_accumulation (truth : ResolvedTruth)
    (classes : List String) :
    ((validateClasses truth classes).errors =
      classes.filterMap (rejectionOf truth) ∧
     (validateClasses truth classes).code =
      String.intercalate " " (acceptedClasses truth classes) ∧
     ((validateClasses truth classes).isValid = true ↔
      (validateClasses truth classes).errors = [])) ∧
    validateCode "className=\"bg-red text-giant p-4\"" exampleTruth =
      { isValid := false, code := "bg-red p-4",
        errors := ["Invalid class 'text-giant'. Did you mean: 'text-red'?"] } := by
  refine ⟨⟨?_, ?_, ?_⟩, ?_⟩
  · simp [validateClasses, validateGo_errors]
  · simp [validateClasses, validateGo_fst]
  · simp [validateClasses, validateGo_flag, List.isEmpty_iff]
  · have hex : extractClasses "className=\"bg-red text-giant p-4\"" =
        ["bg-red", "text-giant", "p-4"] := by rfl
    have h1 : classifyToken exampleTruth "bg-red" = .accept := by rfl
    have hfc : findClosest "giant" (recKeys exampleTruth.colors) = ["red"] :=
      findClosest_singleton "giant" "red"
    have h2 : classifyToken exampleTruth "text-giant" =
        .reject "Invalid class 'text-giant'. Did you mean: 'text-red'?" := by
      have hm : findLongestMatch "text-giant" = some ("colors", "text-") := by
        decide
      rw [classifyToken, if_neg (by decide), hm]
      simp only [classifyMatched,
        show extractToken "text-giant" "text-" = "giant" from rfl]
      rw [if_pos (by decide), if_pos (by decide), if_neg (by decide),
        if_pos (by decide), hfc]
      rfl
    have h3 : classifyToken exampleTruth "p-4" = .accept := by rfl
    rw [validateCode, hex, validateClasses]
    simp only [validateGo, h1, h2, h3]
    rfl

/-- **C4.** A token containing both `[` and `]` is rejected by the
arbitrary-value veto before any category dispatch — the rejection and
its message are independent of the resolved truth and of any prefix
match — and such a token never appears among the accepted classes whose
space-join is the reconstructed `code` of `validateCode`. -/
theorem C4_arbitrary_value_veto (truth : ResolvedTruth) (cls : String)
    (hl : jsIncludesChar cls '[' = true) (hr : jsIncludesChar cls ']' = true) :
    classifyToken truth cls =
      .reject ("Invalid arbitrary value: '" ++ cls ++
        "'. Arbitrary values are not allowed.") ∧
    ∀ code : String,
      (validateCode code truth).code =
        String.intercalate " " (acceptedClasses truth (extractClasses code)) ∧
      cls ∉ acceptedClasses truth (extractClasses code) := by
  have hveto : classifyToken truth cls =
      .reject ("Invalid arbitrary value: '" ++ cls ++
        "'. Arbitrary values are not allowed.") := by
    simp [classifyToken, hl, hr]
  refine ⟨hveto, fun code => ⟨?_, ?_⟩⟩
  · simp [validateCode, validateClasses, validateGo_fst]
  · intro hmem
    rcases List.mem_filter.mp hmem with ⟨-, hacc⟩
    rw [hveto] at hacc
    exact absurd (of_decide_eq_true hacc) (by simp)

/-- **C4, witness.** The veto at the spec's example token `w-[50px]`. -/
theorem C4_arbitrary_value_veto_witness :
    classifyToken ⟨[], []⟩ "w-[50px]" =
      .reject "Invalid arbitrary value: 'w-[50px]'. Arbitrary values are not allowed." :=
  (C4_arbitrary_value_veto ⟨[], []⟩ "w-[50px]" (by decide) (by decide)).1

/-! ### Longest-match characterization of the prefix matcher -/

/-- Every `(category, entry)` pair of the table, in registration order. -/
def tablePairs : List (String × String) :=
  SCOPED_PREFIXES.flatMap (fun e => e.2.map (fun p => (e.1, p)))

/-- The pairs whose entry matches the class, in registration order. -/
def allMatches (cls : String) : List (String × String) :=
  tablePairs.filter (fun q => matchesEntry cls q.2)

/-- The matcher's loop step once an entry is known to match. -/
def pickStep (acc : Option (String × String) × Nat) (q : String × String) :
    Option (String × String) × Nat :=
  if decide (acc.2 < jsLength q.2) then (some q, jsLength q.2) else acc

theorem foldl_flatMap {α β γ : Type} (g : β → List γ) (f : α → γ → α)
    (l : List β) (init : α) :
    (l.flatMap g).foldl f init = l.foldl (fun a e => (g e).foldl f a) init := by
  induction l generalizing init with
  | nil => rfl
  | cons e l ih => simp [List.flatMap_cons, List.foldl_append, ih]

theorem findLongestMatch_eq_pairs_fold (cls : String) :
    findLongestMatch cls = (tablePairs.foldl (flmStep cls) (none, 0)).1 := by
  rw [findLongestMatch, tablePairs, foldl_flatMap]
  simp [List.foldl_map]

theorem flmStep_eq_pickStep (cls : String)
    (acc : Option (String × String) × Nat) (q : String × String) :
    flmStep cls acc q = if matchesEntry cls q.2 then pickStep acc q else acc := by
  by_cases h : matchesEntry cls q.2 <;> simp [flmStep, pickStep, h]

theorem foldl_flmStep_filter (cls : String) (l : List (String × String)) :
    ∀ acc, l.foldl (flmStep cls) acc =
      (l.filter (fun q => matchesEntry cls q.2)).foldl pickStep acc := by
  induction l with
  | nil => intro acc; rfl
  | cons q l ih =>
    intro acc
    by_cases h : matchesEntry cls q.2 <;>
      simp [List.filter_cons, h, List.foldl_cons, flmStep_eq_pickStep, ih]

theorem pickFold_from_some (F : List (String × String)) :
    ∀ m0 : String × String,
    ∃ m, F.foldl pickStep (some m0, jsLength m0.2) = (some m, jsLength m.2) ∧
      ((m = m0 ∧ ∀ q ∈ F, jsLength q.2 ≤ jsLength m.2) ∨
       (∃ l1 l2, F = l1 ++ m :: l2 ∧ jsLength m0.2 < jsLength m.2 ∧
         (∀ q ∈ l1, jsLength q.2 < jsLength m.2) ∧
         (∀ q ∈ l2, jsLength q.2 ≤ jsLength m.2))) := by
  induction F with
  | nil => exact fun m0 => ⟨m0, rfl, .inl ⟨rfl, by simp⟩⟩
  | cons q F ih =>
    intro m0
    by_cases h : jsLength m0.2 < jsLength q.2
    · obtain ⟨m, hfold, hdisj⟩ := ih q
      refine ⟨m, by simpa [List.foldl_cons, pickStep, h] using hfold, ?_⟩
      rcases hdisj with ⟨rfl, hb⟩ | ⟨l1, l2, hF, hlt, hl1, hl2⟩
      · exact .inr ⟨[], F, rfl, h, by simp, hb⟩
      · refine .inr ⟨q :: l1, l2, by simp [hF], Nat.lt_trans h hlt, ?_, hl2⟩
        intro x hx
        rcases List.mem_cons.mp hx with rfl | hx
        · exact hlt
        · exact hl1 x hx
    · obtain ⟨m, hfold, hdisj⟩ := ih m0
      refine ⟨m, by simpa [List.foldl_cons, pickStep, h] using hfold, ?_⟩
      rcases hdisj with ⟨rfl, hb⟩ | ⟨l1, l2, hF, hlt, hl1, hl2⟩
      · refine .inl ⟨rfl, ?_⟩
        intro x hx
        rcases List.mem_cons.mp hx with rfl | hx
        · exact Nat.le_of_not_lt h
        · exact hb x hx
      · refine .inr ⟨q :: l1, l2, by simp [hF], hlt, ?_, hl2⟩
        intro x hx
        rcases List.mem_cons.mp hx with rfl | hx
        · exact Nat.lt_of_le_of_lt (Nat.le_of_not_lt h) hlt
        · exact hl1 x hx

theorem pickFold_from_none (F : List (String × String))
    (hpos : ∀ q ∈ F, 0 < jsLength q.2) :
    (F = [] ∧ (F.foldl pickStep (none, 0)).1 = none) ∨
    (∃ m l1 l2, (F.foldl pickStep (none, 0)).1 = some m ∧
      F = l1 ++ m :: l2 ∧ (∀ q ∈ l1, jsLength q.2 < jsLength m.2) ∧
      (∀ q ∈ l2, jsLength q.2 ≤ jsLength m.2)) := by
  cases F with
  | nil => exact .inl ⟨rfl, rfl⟩
  | cons q F =>
    have hq : 0 < jsLength q.2 := hpos q (by simp)
    obtain ⟨m, hfold, hdisj⟩ := pickFold_from_some F q
    have hstep : (q :: F).foldl pickStep (none, 0) = (some m, jsLength m.2) := by
      simpa [List.foldl_cons, pickStep, hq] using hfold
    rcases hdisj with ⟨rfl, hb⟩ | ⟨l1, l2, hF, hlt, hl1, hl2⟩
    · exact .inr ⟨m, [], F, by rw [hstep], rfl, by simp, hb⟩
    · refine .inr ⟨m, q :: l1, l2, by rw [hstep], by simp [hF], ?_, hl2⟩
      intro x hx
      rcases List.mem_cons.mp hx with rfl | hx
      · exact hlt
      · exact hl1 x hx

/-- `findLongestMatch` returns the first longest element of the matching
pairs, in registration order, and `none` exactly when nothing matches. -/
theorem findLongestMatch_spec (cls : String) :
    (findLongestMatch cls = none ↔ allMatches cls = []) ∧
    (∀ m, findLongestMatch cls = some m →
      ∃ l1 l2, allMatches cls = l1 ++ m :: l2 ∧
        (∀ q ∈ l1, jsLength q.2 < jsLength m.2) ∧
        (∀ q ∈ l2, jsLength q.2 ≤ jsLength m.2)) := by
  have hpos : ∀ q ∈ tablePairs, 0 < jsLength q.2 := by decide
  have hpos' : ∀ q ∈ allMatches cls, 0 < jsLength q.2 := fun q hq =>
    hpos q (List.mem_of_mem_filter hq)
  have hrw : findLongestMatch cls =
      ((allMatches cls).foldl pickStep (none, 0)).1 := by
    rw [findLongestMatch_eq_pairs_fold, foldl_flmStep_filter]; rfl
  rcases pickFold_from_none (allMatches cls) hpos' with
    ⟨hF, hfold⟩ | ⟨m, l1, l2, hfold, hF, hl1, hl2⟩
  · refine ⟨⟨fun _ => hF, fun _ => by rw [hrw, hfold]⟩, ?_⟩
    intro m hm
    rw [hrw, hfold] at hm
    exact absurd hm (by simp)
  · constructor
    · rw [hrw, hfold]
      constructor
      · intro h; exact absurd h (by simp)
      · intro h; rw [hF] at h; exact absurd h (by simp)
    · intro m' hm'
      rw [hrw, hfold] at hm'
      cases Option.some.inj hm'
      exact ⟨l1, l2, hF, hl1, hl2⟩

/-- **C6.** For every token, the prefix matcher selects, among all
matching `(category, entry)` pairs of the table — exact equality for
entries without a trailing separator, `startsWith` for
separator-terminated entries — the pair with the longest entry, ties
broken by first-registered order: the selected pair sits in the match
list with every earlier match strictly shorter and every later match no
longer; no match yields `none`.  In particular `border-blue-500`
selects `border-` in the `colors` category, with remainder
`blue-500`. -/
theorem C6_longest_prefix_wins (cls : String) :
    ((findLongestMatch cls = none ↔ allMatches cls = []) ∧
     (∀ m, findLongestMatch cls = some m →
       ∃ l1 l2, allMatches cls = l1 ++ m :: l2 ∧
         (∀ q ∈ l1, jsLength q.2 < jsLength m.2) ∧
         (∀ q ∈ l2, jsLength q.2 ≤ jsLength m.2))) ∧
    findLongestMatch "border-blue-500" = some ("colors", "border-") ∧
    extractToken "border-blue-500" "border-" = "blue-500" :=
  ⟨findLongestMatch_spec cls, by decide, by decide⟩

/-! ### Bare strict prefixes and the overloaded-prefix check order -/

theorem classifyMatched_accept_of_empty_token (truth : ResolvedTruth)
    (cls cat pfx : String) (h : extractToken cls pfx = "") :
    classifyMatched truth cls cat pfx = .accept := by
  simp only [classifyMatched, h]
  have h1 : ("" != "") = false := rfl
  have h2 : TEXT_SIZES.contains "" = false := rfl
  have h3 : BORDER_WIDTHS.contains "" = false := rfl
  simp [h1, h2, h3]

theorem classifyToken_accept_of_empty (truth : ResolvedTruth) (cls : String)
    (hb : (jsIncludesChar cls '[' && jsIncludesChar cls ']') = false)
    (he : (findLongestMatch cls).all (fun m => extractToken cls m.2 == "") = true) :
    classifyToken truth cls = .accept := by
  rw [classifyToken, if_neg (by simp [hb])]
  cases hm : findLongestMatch cls with
  | none => rfl
  | some m =>
    rw [hm] at he
    obtain ⟨cat, pfx⟩ := m
    exact classifyMatched_accept_of_empty_token truth cls cat pfx
      (by simpa using he)

/-- **C10.** A class that is exactly one of the strict categories'
separator-terminated prefix entries (`colors` or `spacing`), with an
empty remainder — such as the bare `bg-` or `p-` — is accepted by the
validator for every resolved truth, even though the empty string is
never a key of the resolved mappings: the strict membership check fires
only on a non-empty remainder.  Such a class is always kept among the
accepted classes whose space-join is the reconstructed code string. -/
theorem C10_bare_strict_prefix_accepted (truth : ResolvedTruth) (p : String)
    (hp : ∃ e ∈ SCOPED_PREFIXES, (e.1 = "colors" ∨ e.1 = "spacing") ∧ p ∈ e.2) :
    classifyToken truth p = .accept ∧
    ∀ classes : List String, p ∈ classes → p ∈ acceptedClasses truth classes := by
  have haccept : classifyToken truth p = .accept := by
    obtain ⟨e, he, hcat, hpe⟩ := hp
    simp only [SCOPED_PREFIXES, List.mem_cons, List.not_mem_nil, or_false] at he
    rcases he with rfl | rfl | rfl | rfl | rfl
    · simp only [List.mem_cons, List.not_mem_nil, or_false] at hpe
      rcases hpe with rfl | rfl | rfl | rfl | rfl <;>
        exact classifyToken_accept_of_empty truth _ (by decide) (by decide)
    · simp only [List.mem_cons, List.not_mem_nil, or_false] at hpe
      rcases hpe with rfl | rfl | rfl | rfl | rfl | rfl | rfl | rfl | rfl | rfl |
        rfl | rfl | rfl | rfl | rfl | rfl | rfl | rfl | rfl <;>
        exact classifyToken_accept_of_empty truth _ (by decide) (by decide)
    · simp at hcat
    · simp at hcat
    · simp at hcat
  exact ⟨haccept, fun classes hc =>
    List.mem_filter.mpr ⟨hc, by rw [haccept]; rfl⟩⟩

/-- **C10, witness.** The bare `bg-` against an empty truth. -/
theorem C10_bare_strict_prefix_accepted_witness :
    classifyToken ⟨[], []⟩ "bg-" = .accept ∧
    "bg-" ∈ acceptedClasses ⟨[], []⟩ ["bg-"] :=
  ⟨(C10_bare_strict_prefix_accepted ⟨[], []⟩ "bg-" (by decide)).1,
   (C10_bare_strict_prefix_accepted ⟨[], []⟩ "bg-" (by decide)).2 ["bg-"] (by decide)⟩

theorem classifyMatched_text (truth : ResolvedTruth) (cls : String) :
    classifyMatched truth cls "colors" "text-" =
      (if TEXT_SIZES.contains (extractToken cls "text-") then .accept
       else if extractToken cls "text-" != "" &&
           !recTruthy truth.colors (extractToken cls "text-") then
         .reject (invalidClassMsg cls "text-"
           (findClosest (extractToken cls "text-") (recKeys truth.colors)))
       else .accept) := by
  simp only [classifyMatched]
  rw [if_pos (show (("colors" : String) == "colors") = true from rfl),
    if_pos (show (("text-" : String) == "text-") = true from rfl)]

theorem classifyMatched_border (truth : ResolvedTruth) (cls : String) :
    classifyMatched truth cls "colors" "border-" =
      (if BORDER_WIDTHS.contains (extractToken cls "border-") then .accept
       else if extractToken cls "border-" != "" &&
           !recTruthy truth.colors (extractToken cls "border-") then
         .reject (invalidClassMsg cls "border-"
           (findClosest (extractToken cls "border-") (recKeys truth.colors)))
       else .accept) := by
  simp only [classifyMatched]
  rw [if_pos (show (("colors" : String) == "colors") = true from rfl),
    if_neg (show ¬ (("border-" : String) == "text-") = true by decide),
    if_pos (show (("border-" : String) == "border-") = true from rfl)]

theorem reject_accept_iff (r : Rec) (tok msg : String) :
    ((if tok != "" && !recTruthy r tok then TokenVerdict.reject msg
      else .accept) = .accept ↔ (tok = "" ∨ recTruthy r tok = true)) := by
  by_cases h0 : tok = ""
  · subst h0
    simp
  · have h0' : (tok != "") = true := by simpa using h0
    by_cases hr : recTruthy r tok
    · rw [if_neg (by simp [h0', hr])]
      simp [h0, hr]
    · rw [if_pos (by simp [h0', hr])]
      simp [h0, hr]

/-- **C5.** For every token whose longest prefix match is the
text-color/text-size entry, validation checks the remainder against the
fixed text-size keyword set first and accepts immediately on a match
(whatever the resolved truth holds); only otherwise is the remainder
checked against the resolved color keys.  Likewise a token whose
longest prefix match is the border entry is checked against the fixed
numeric border-width set first, and only otherwise against the resolved
color keys.  (A token caught by the earlier arbitrary-value veto never
reaches this dispatch, hence the bracket-free hypothesis.) -/
theorem C5_overloaded_check_order (truth : ResolvedTruth) (cls : String)
    (hnb : (jsIncludesChar cls '[' && jsIncludesChar cls ']') = false) :
    (findLongestMatch cls = some ("colors", "text-") →
      (TEXT_SIZES.contains (extractToken cls "text-") = true →
        classifyToken truth cls = .accept) ∧
      (TEXT_SIZES.contains (extractToken cls "text-") = false →
        (classifyToken truth cls = .accept ↔
          (extractToken cls "text-" = "" ∨
            recTruthy truth.colors (extractToken cls "text-") = true)))) ∧
    (findLongestMatch cls = some ("colors", "border-") →
      (BORDER_WIDTHS.contains (extractToken cls "border-") = true →
        classifyToken truth cls = .accept) ∧
      (BORDER_WIDTHS.contains (extractToken cls "border-") = false →
        (classifyToken truth cls = .accept ↔
          (extractToken cls "border-" = "" ∨
            recTruthy truth.colors (extractToken cls "border-") = true)))) := by
  constructor
  · intro hm
    have hred : classifyToken truth cls = classifyMatched truth cls "colors" "text-" := by
      rw [classifyToken, if_neg (by simp [hnb]), hm]
    rw [hred, classifyMatched_text]
    constructor
    · intro hT
      rw [if_pos hT]
    · intro hT
      rw [if_neg (show ¬ TEXT_SIZES.contains (extractToken cls "text-") = true by
        rw [hT]; exact Bool.false_ne_true)]
      exact reject_accept_iff truth.colors (extractToken cls "text-") _
  · intro hm
    have hred : classifyToken truth cls =
        classifyMatched truth cls "colors" "border-" := by
      rw [classifyToken, if_neg (by simp [hnb]), hm]
    rw [hred, classifyMatched_border]
    constructor
    · intro hT
      rw [if_pos hT]
    · intro hT
      rw [if_neg (show ¬ BORDER_WIDTHS.contains (extractToken cls "border-") = true by
        rw [hT]; exact Bool.false_ne_true)]
      exact reject_accept_iff truth.colors (extractToken cls "border-") _

/-- **C5, witness.** `text-xl` is accepted as a size keyword against an
empty truth, and `border-2` as a width keyword. -/
theorem C5_overloaded_check_order_witness :
    classifyToken ⟨[], []⟩ "text-xl" = .accept ∧
    classifyToken ⟨[], []⟩ "border-2" = .accept :=
  ⟨((C5_overloaded_check_order ⟨[], []⟩ "text-xl" (by decide)).1
      (by decide)).1 (by decide),
   ((C5_overloaded_check_order ⟨[], []⟩ "border-2" (by decide)).2
      (by decide)).1 (by decide)⟩

/-! ### The suggestion engine: the matrix computes the edit-distance
recurrence, and sorting is stable -/

theorem getD_eq_getElem {α : Type} (l : List α) (i : Nat) (d : α)
    (h : i < l.length) : l.getD i d = l[i] := by
  simp [List.getD_eq_getElem?_getD, List.getElem?_eq_getElem h]

theorem levGo_spec (aC bC : List Char) (i : Nat) (bc : Char)
    (hbc : bc = bC.getD i ' ') :
    ∀ (k j : Nat), j + k = aC.length →
      levGo bc (aC.drop j)
        ((List.range' (j + 1) k).map (edCell aC bC i))
        (edCell aC bC i j) (edCell aC bC (i + 1) j) =
      (List.range' (j + 1) k).map (edCell aC bC (i + 1)) := by
  intro k
  induction k with
  | zero =>
    intro j hj
    simp only [List.range'_zero, List.map_nil]
    cases hd : aC.drop j <;> simp [levGo]
  | succ k ih =>
    intro j hj
    have hjlt : j < aC.length := by omega
    have hdrop : aC.drop j = aC[j] :: aC.drop (j + 1) :=
      List.drop_eq_getElem_cons hjlt
    have hA : aC.getD j ' ' = aC[j] := getD_eq_getElem aC j ' ' hjlt
    rw [hdrop, List.range'_succ]
    simp only [List.map_cons]
    simp only [levGo]
    have hc : (if bc == aC[j] then edCell aC bC i j
        else min (edCell aC bC i j + 1)
          (min (edCell aC bC (i + 1) j + 1) (edCell aC bC i (j + 1) + 1))) =
        edCell aC bC (i + 1) (j + 1) := by
      conv_rhs => rw [edCell]
      rw [hbc, hA]
    rw [hc]
    congr 1
    have := ih (j + 1) (by omega)
    simpa using this

theorem levNextRow_spec (aC bC : List Char) (i : Nat) (bc : Char)
    (hbc : bc = bC.getD i ' ') :
    levNextRow bc aC (i + 1)
      ((List.range (aC.length + 1)).map (edCell aC bC i)) =
    (List.range (aC.length + 1)).map (edCell aC bC (i + 1)) := by
  rw [List.range_eq_range', List.range'_succ, List.map_cons, List.map_cons]
  simp only [levNextRow]
  have h0 : edCell aC bC (i + 1) 0 = i + 1 := by rw [edCell]
  rw [h0]
  congr 1
  have := levGo_spec aC bC i bc hbc aC.length 0 (by omega)
  rw [h0] at this
  simpa using this

theorem lev_fold_spec (aC bC : List Char) :
    ∀ (l : List Char) (i : Nat), l = bC.drop i →
      l.foldl (fun st bc => (levNextRow bc aC (st.2 + 1) st.1, st.2 + 1))
        ((List.range (aC.length + 1)).map (edCell aC bC i), i) =
      ((List.range (aC.length + 1)).map (edCell aC bC (i + l.length)),
        i + l.length) := by
  intro l
  induction l with
  | nil => intro i h; simp
  | cons c l ih =>
    intro i h
    have hilt : i < bC.length := by
      by_contra hge
      rw [List.drop_eq_nil_of_le (Nat.le_of_not_lt hge)] at h
      simp at h
    have hdc : bC.drop i = bC[i] :: bC.drop (i + 1) :=
      List.drop_eq_getElem_cons hilt
    rw [hdc] at h
    have hc : c = bC.getD i ' ' := by
      rw [getD_eq_getElem bC i ' ' hilt]
      exact (List.cons.injEq .. |>.mp h).1
    have hl : l = bC.drop (i + 1) := (List.cons.injEq .. |>.mp h).2
    simp only [List.foldl_cons]
    rw [levNextRow_spec aC bC i c hc, ih (i + 1) hl]
    have harith : i + 1 + l.length = i + (l.length + 1) := by omega
    simp [harith]

/-- The code's matrix-filling `levenshtein` computes exactly the
single-character-edit distance recurrence. -/
theorem levenshtein_eq_edCell (a b : String) :
    levenshtein a b = edCell a.data b.data b.data.length a.data.length := by
  rw [levenshtein]
  have h0 : List.range (jsLength a + 1) =
      (List.range (a.data.length + 1)).map (edCell a.data b.data 0) := by
    rw [jsLength]
    symm
    exact List.map_id'' (fun j => by rw [edCell]) _
  rw [h0]
  rw [lev_fold_spec a.data b.data b.data 0 rfl]
  simp only [Nat.zero_add]
  rw [List.getD_eq_getElem?_getD, List.getElem?_map,
    List.getElem?_range (show jsLength a < a.data.length + 1 by rw [jsLength]; omega)]
  rfl

theorem leDist_trans (x y z : String × Nat)
    (hxy : (decide (x.2 ≤ y.2)) = true) (hyz : (decide (y.2 ≤ z.2)) = true) :
    (decide (x.2 ≤ z.2)) = true := by
  simp only [decide_eq_true_eq] at *
  omega

theorem leDist_total (x y : String × Nat) :
    ((decide (x.2 ≤ y.2)) || (decide (y.2 ≤ x.2))) = true := by
  rcases Nat.le_total x.2 y.2 with h | h <;> simp [h]

/-- **C7.** For every target and candidate pool, `findClosest` returns
the first three elements of the stable ascending sort of the pool
decorated with edit distances: there is a list that is a permutation of
the decorated pool, is sorted by distance, retains the pool's relative
order on every tie (any distance-respecting pair keeps its order), and
whose first three candidates are the result.  The distance used is
exactly the single-character-edit (insertion/deletion/substitution)
distance recurrence, with no case normalization.  In particular, for
pool `["blue-500","blue-600","green-500"]` and target `"blue-50"`, the
result ranks `blue-500` (distance 1) first and `green-500` last. -/
theorem C7_suggestion_engine (target : String) (pool : List String) :
    (∀ o : String, levenshtein target o =
      edCell target.data o.data o.data.length target.data.length) ∧
    (∃ l : List (String × Nat),
      findClosest target pool = (l.take 3).map (fun d => d.1) ∧
      l.Perm (pool.map (fun o => (o, levenshtein target o))) ∧
      l.Pairwise (fun x y => x.2 ≤ y.2) ∧
      (∀ x y : String × Nat,
        [x, y].Sublist (pool.map (fun o => (o, levenshtein target o))) →
        x.2 ≤ y.2 → [x, y].Sublist l)) ∧
    findClosest "blue-50" ["blue-500", "blue-600", "green-500"] =
      ["blue-500", "blue-600", "green-500"] := by
  refine ⟨fun o => levenshtein_eq_edCell target o, ?_, ?_⟩
  · refine ⟨(pool.map (fun o => (o, levenshtein target o))).mergeSort
      (fun x y => decide (x.2 ≤ y.2)), rfl, ?_, ?_, ?_⟩
    · exact List.mergeSort_perm _ _
    · exact (List.sorted_mergeSort leDist_trans leDist_total _).imp
        (fun h => of_decide_eq_true h)
    · intro x y hsub hle
      exact List.pair_sublist_mergeSort leDist_trans leDist_total
        (decide_eq_true hle) hsub
  · have hdist : (["blue-500", "blue-600", "green-500"].map
        (fun o => (o, levenshtein "blue-50" o))) =
        [("blue-500", 1), ("blue-600", 2), ("green-500", 5)] := by decide
    rw [findClosest, hdist, List.mergeSort_of_sorted (by decide)]
    rfl

/-! ### The extraction boundary (`extractTruth`, `part_001` lines 86-187) -/

/-- The `ConfigParseError` the extractor throws on every failure: a JS
`Error` subclass whose `name` field is always `ConfigParseError`. -/
structure ConfigParseError where
  name : String
  message : String
  deriving DecidableEq, Repr

/-- The class constructor: sets `name` to `ConfigParseError`. -/
def mkConfigParseError (message : String) : ConfigParseError :=
  { name := "ConfigParseError", message := message }

/-- The extractor's external world: the filesystem probe
(`fs.existsSync`), the file read (`fs.readFileSync`), the parser
(babel `parse`) and the wrapped AST traversal, each abstracted by its
outcome; `Ast` abstracts the parsed tree, and a successful traversal
yields the collected extend/override colors and spacing objects. -/
structure ExtractEnv (Ast : Type) where
  existsSync : String → Bool
  readFileSync : String → Except String String
  parseSource : String → Except String Ast
  traverseAst : Ast → Except String (JValue × JValue × JValue × JValue)

/-- `path.join(projectRoot, file)`. -/
def pathJoin (root file : String) : String := root ++ "/" ++ file

/-- The ordered configuration filename probe list. -/
def configFiles : List String :=
  ["tailwind.config.js", "tailwind.config.ts", "tailwind.config.cjs"]

/-- `extractTruth`: probe the config filenames in order, read, parse,
traverse, then flatten the four collected objects; every failure throws
a `ConfigParseError` whose message names the failing stage. -/
def extractTruth {Ast : Type} (env : ExtractEnv Ast) (projectRoot : String) :
    Except ConfigParseError ExtractedTruth :=
  match configFiles.find? (fun f => env.existsSync (pathJoin projectRoot f)) with
  | none => .error (mkConfigParseError "No tailwind config file found")
  | some file =>
    match env.readFileSync (pathJoin projectRoot file) with
    | .error e => .error (mkConfigParseError ("Failed to read config file: " ++ e))
    | .ok code =>
      match env.parseSource code with
      | .error e =>
        .error (mkConfigParseError ("Failed to parse config file: " ++ e))
      | .ok ast =>
        match env.traverseAst ast with
        | .error e =>
          .error (mkConfigParseError ("Failed to traverse AST: " ++ e))
        | .ok (ec, es, oc, os) =>
          .ok { extend := { colors := flattenObject ec "",
                            spacing := flattenObject es "" },
                override := { colors := flattenObject oc "",
                              spacing := flattenObject os "" } }

/-- A config-unavailable failure message: no config found, or the read
failed. -/
def unavailableMsg (m : String) : Prop :=
  m = "No tailwind config file found" ∨
    jsStartsWith m "Failed to read config file: " = true

/-- A config-malformed failure message: the parse or the traversal
failed. -/
def malformedMsg (m : String) : Prop :=
  jsStartsWith m "Failed to parse config file: " = true ∨
    jsStartsWith m "Failed to traverse AST: " = true

theorem jsStartsWith_append (p x : String) : jsStartsWith (p ++ x) p = true := by
  simp [jsStartsWith]

theorem not_jsStartsWith_incomp (p1 p2 x : String)
    (h : (p1.data.isPrefixOf p2.data || p2.data.isPrefixOf p1.data) = false) :
    jsStartsWith (p2 ++ x) p1 = false := by
  rw [jsStartsWith]
  by_contra hc
  have h1 : p1.data <+: p2.data ++ x.data := by
    have := Bool.of_not_eq_false hc
    simpa using this
  have h2 : p2.data <+: p2.data ++ x.data := List.prefix_append _ _
  simp only [Bool.or_eq_false_iff] at h
  rcases List.prefix_or_prefix_of_prefix h1 h2 with hp | hp
  · exact absurd (List.isPrefixOf_iff_prefix.mpr hp) (by simp [h.1])
  · exact absurd (List.isPrefixOf_iff_prefix.mpr hp) (by simp [h.2])

theorem not_msgStartsWith (p1 p2 x : String)
    (h : (p1.data.isPrefixOf p2.data || p2.data.isPrefixOf p1.data) = false) :
    ¬ jsStartsWith (mkConfigParseError (p2 ++ x)).message p1 = true := by
  intro hc
  rw [show (mkConfigParseError (p2 ++ x)).message = p2 ++ x from rfl,
    not_jsStartsWith_incomp p1 p2 x h] at hc
  exact Bool.false_ne_true hc

theorem append_ne_of_not_isPrefixOf (p x s : String)
    (h : p.data.isPrefixOf s.data = false) : p ++ x ≠ s := by
  intro he
  rw [← he, String.data_append] at h
  exact absurd (List.isPrefixOf_iff_prefix.mpr (List.prefix_append p.data x.data))
    (by rw [h]; exact Bool.false_ne_true)

/-- **C8, amended.** Every extraction failure is reported as the single
error kind `ConfigParseError`; the failure circumstance is carried only
by the message, which falls into exactly one of two disjoint message
groups — config-unavailable (no config found, or the read failed) and
config-malformed (the parse or the traversal failed).  The two groups
are thus distinguishable by message text, but not by a distinct error
kind as the claim states. -/
theorem C8_single_error_kind {Ast : Type} (env : ExtractEnv Ast)
    (root : String) (e : ConfigParseError)
    (h : extractTruth env root = .error e) :
    e.name = "ConfigParseError" ∧
    (unavailableMsg e.message ∨ malformedMsg e.message) ∧
    ¬(unavailableMsg e.message ∧ malformedMsg e.message) := by
  unfold extractTruth at h
  split at h
  · cases h
    refine ⟨rfl, .inl (.inl rfl), ?_⟩
    rintro ⟨-, hm | hm⟩ <;> exact absurd hm (by decide)
  · split at h
    · cases h
      refine ⟨rfl, .inl (.inr (jsStartsWith_append _ _)), ?_⟩
      rintro ⟨-, hm | hm⟩
      · exact absurd hm (not_msgStartsWith "Failed to parse config file: "
          "Failed to read config file: " _ (by decide))
      · exact absurd hm (not_msgStartsWith "Failed to traverse AST: "
          "Failed to read config file: " _ (by decide))
    · split at h
      · cases h
        refine ⟨rfl, .inr (.inl (jsStartsWith_append _ _)), ?_⟩
        rintro ⟨hu | hu, -⟩
        · exact absurd hu (append_ne_of_not_isPrefixOf _ _ _ (by decide))
        · exact absurd hu (not_msgStartsWith "Failed to read config file: "
            "Failed to parse config file: " _ (by decide))
      · split at h
        · cases h
          refine ⟨rfl, .inr (.inr (jsStartsWith_append _ _)), ?_⟩
          rintro ⟨hu | hu, -⟩
          · exact absurd hu (append_ne_of_not_isPrefixOf _ _ _ (by decide))
          · exact absurd hu (not_msgStartsWith "Failed to read config file: "
              "Failed to traverse AST: " _ (by decide))
        · cases h

/-- A world with no configuration file anywhere. -/
def envNoConfig : ExtractEnv Unit :=
  ⟨fun _ => false, fun _ => .error "ENOENT", fun _ => .error "unused",
   fun _ => .error "unused"⟩

/-- A world whose configuration file exists and reads fine but does not
parse. -/
def envBadParse : ExtractEnv Unit :=
  ⟨fun _ => true, fun _ => .ok "not ( valid javascript",
   fun _ => .error "SyntaxError", fun _ => .error "unused"⟩

/-- **C8, counterexample.** A config-unavailable failure (no recognized
configuration filename exists) and a config-malformed failure (the
source does not parse) are reported with the very same caller-visible
error kind — both are a `ConfigParseError` — so the two circumstances
are not two disjoint error kinds distinguishable by the caller. -/
theorem C8_cex_same_kind :
    extractTruth envNoConfig "/proj" =
      .error ⟨"ConfigParseError", "No tailwind config file found"⟩ ∧
    extractTruth envBadParse "/proj" =
      .error ⟨"ConfigParseError", "Failed to parse config file: SyntaxError"⟩ := by
  constructor <;> rfl

/-- **C8, amended, witness.** The amended statement at the
missing-config world. -/
theorem C8_single_error_kind_witness :
    (mkConfigParseError "No tailwind config file found").name =
      "ConfigParseError" ∧
    (unavailableMsg (mkConfigParseError "No tailwind config file found").message ∨
      malformedMsg (mkConfigParseError "No tailwind config file found").message) ∧
    ¬(unavailableMsg (mkConfigParseError "No tailwind config file found").message ∧
      malformedMsg (mkConfigParseError "No tailwind config file found").message) :=
  C8_single_error_kind envNoConfig "/proj"
    (mkConfigParseError "No tailwind config file found") rfl

end LazyUI
